import Mathlib

/-!
Shallow embedding of `src/bot.py` (tg-project-curator): URL normalization,
pagination, credit extraction, description trimming, and the per-source
queue-scheduling state machine (refresh / backlog scan / pick / publish).

Python strings are modelled as `List Char` (`Url`); Python `None`-able
strings as `Option Url`; fallible HTTP fetches as an oracle returning
`Option`.  External collaborators (the HTTP transport, the HTML/regex
engines, the random shuffle) are oracle parameters collected in `Env`;
everything else is translated from the source.
-/

namespace TgCurator

/-- Python strings are modelled as lists of characters. -/
abbrev Url := List Char

/-- Character list of a Lean string literal (used to write Python string
literals in the embedding). -/
def strL (s : String) : Url := s.data

/-- ASCII whitespace, as stripped by Python `str.strip()` and matched by
`\s` (the unicode-only whitespace code points do not occur in this
program's data). -/
def pySpace (c : Char) : Bool :=
  c == ' ' || c == '\t' || c == '\n' || c == '\r' || c == '\x0b' || c == '\x0c'

/-- Python `str.strip()`: drop leading and trailing whitespace. -/
def pyStrip (l : Url) : Url :=
  ((l.dropWhile pySpace).reverse.dropWhile pySpace).reverse

/-- Python `str.rstrip()`: drop trailing whitespace only. -/
def pyRStrip (l : Url) : Url :=
  (l.reverse.dropWhile pySpace).reverse

/-- Python `pat in s` substring test. -/
def isSubstr (pat l : Url) : Bool :=
  l.tails.any (fun t => pat.isPrefixOf t)

/-- Embedding of `normalize_url` (src/bot.py:120-126): strip, drop the
fragment, and drop the query string unless the URL is an ArchDaily search
listing. -/
def normalize_url (u : Url) : Url :=
  let u1 := pyStrip u
  let u2 := u1.takeWhile (fun c => c != '#')
  if u2.contains '?' && !(isSubstr (strL "archdaily.com/search/") u2) then
    u2.takeWhile (fun c => c != '?')
  else u2

/-! ## Decimal rendering of page numbers (Python `str(page)` inside f-strings) -/

/-- Decimal digit character of a value below ten. -/
def digitChar (d : Nat) : Char := Char.ofNat (48 + d)

/-- Fuel-driven most-significant-first decimal digits of a natural number;
with fuel at least the number itself this is the full digit string of a
positive number (and `[]` for zero). -/
def natDigitsGo : Nat → Nat → List Char
  | 0, _ => []
  | fuel + 1, n => if n = 0 then [] else natDigitsGo fuel (n / 10) ++ [digitChar (n % 10)]

/-- Python `str(n)` for a non-negative integer. -/
def pyStr (n : Nat) : Url :=
  if n = 0 then ['0'] else natDigitsGo n n

/-- Decimal value of a digit string (left inverse used to prove `pyStr`
injective). -/
def digitsVal (l : List Char) : Nat :=
  l.foldl (fun a c => 10 * a + (c.toNat - 48)) 0

/-! ## Pagination (src/bot.py:93-117) -/

/-- Configured content origin (src/bot.py:34-39). -/
structure Source where
  id : Url
  name : Url
  list_url : Url
  paging : Url
deriving DecidableEq, Repr

/-- Python `s.rstrip("/")`. -/
def rstripSlashes (l : Url) : Url :=
  (l.reverse.dropWhile (fun c => c == '/')).reverse

/-- Attempted match of the regex `page=\d+` at the head of `l` (the part of
`([?&])page=\d+` after its first character): on success returns the maximal
digit run and the remainder of the string after it. -/
def matchPage (l : Url) : Option (Url × Url) :=
  if (strL "page=").isPrefixOf l then
    let rest := l.drop 5
    let ds := rest.takeWhile Char.isDigit
    if ds = [] then none else some (ds, rest.dropWhile Char.isDigit)
  else none

/-- Fuel-driven embedding of `re.sub(r"([?&])page=\d+", rf"\1page={page}", s)`:
scan left to right, and at each `?` or `&` followed by `page=` and a maximal
digit run, keep the delimiter and `page=` and replace the digit run by the
new page number.  With fuel at least the length of the list this is exactly
the (terminating) regex substitution; fuel 0 returns the list unchanged. -/
def subPageGo (page : Nat) : Nat → Url → Url
  | 0, l => l
  | _ + 1, [] => []
  | fuel + 1, c :: rest =>
    if c == '?' || c == '&' then
      match matchPage rest with
      | some (_, tail) => c :: (strL "page=" ++ pyStr page ++ subPageGo page fuel tail)
      | none => c :: subPageGo page fuel rest
    else c :: subPageGo page fuel rest

/-- Embedding of the full `re.sub` call on `s`. -/
def subPage (page : Nat) (l : Url) : Url := subPageGo page l.length l

/-- Embedding of `re.search(r"([?&])page=\d+", s) is not None`. -/
def hasPageParam : Url → Bool
  | [] => false
  | c :: rest =>
    if (c == '?' || c == '&') && (matchPage rest).isSome then true
    else hasPageParam rest

/-- Embedding of `build_paged_url` (src/bot.py:93-117): page 1 (or below) is
the front listing page; deeper pages are strategy specific, with the
path-based form as the fallback for unknown strategy tags. -/
def build_paged_url (source : Source) (page : Nat) : Url :=
  if page ≤ 1 then source.list_url
  else if source.paging = strL "wp_page" then
    rstripSlashes source.list_url ++ strL "/page/" ++ pyStr page ++ strL "/"
  else if source.paging = strL "dezeen_page" then
    rstripSlashes source.list_url ++ strL "/page/" ++ pyStr page ++ strL "/"
  else if source.paging = strL "archdaily_search_page" then
    if source.list_url.contains '?' then
      if hasPageParam source.list_url then subPage page source.list_url
      else source.list_url ++ strL "&page=" ++ pyStr page
    else source.list_url ++ strL "?page=" ++ pyStr page
  else if source.paging = strL "archdaily_category_page" then
    rstripSlashes source.list_url ++ strL "/page/" ++ pyStr page
  else
    rstripSlashes source.list_url ++ strL "/page/" ++ pyStr page ++ strL "/"

/-! ## Description snippet (src/bot.py:310-315, inside `parse_project`) -/

/-- Helper of `collapse_ws`: the flag records whether the previous character
was whitespace (in which case a further whitespace character extends the
run already replaced by one space). -/
def collapseWsGo : Bool → Url → Url
  | _, [] => []
  | prevWs, c :: rest =>
    if pySpace c then
      if prevWs then collapseWsGo true rest
      else ' ' :: collapseWsGo true rest
    else c :: collapseWsGo false rest

/-- Embedding of `re.sub(r"\s+", " ", s)`: every maximal whitespace run
becomes one space. -/
def collapse_ws (l : Url) : Url := collapseWsGo false l

/-- Embedding of the description post-processing block of `parse_project`
(src/bot.py:310-315): strip, collapse whitespace, and shorten a snippet
longer than 320 characters to its first 317 characters, right-stripped,
followed by one ellipsis character. -/
def trim_desc (desc : Url) : Url :=
  let d := collapse_ws (pyStrip desc)
  if 320 < d.length then pyRStrip (d.take 317) ++ ['…'] else d

/-! ## Credit extraction (src/bot.py:221-231)

A regex pattern together with Python's `re.search(...).group(1)` is
modelled as its matching function `text ↦ some capture` / `none`; the
regex engine itself is external.  The separator set is the character class
of `re.split(r"[\n\r|•·]", val)`. -/

/-- Separator characters at which a captured credit value is cut. -/
def cred_seps : List Char := ['\n', '\r', '|', '•', '·']

/-- First segment of `re.split(r"[\n\r|•·]", v)`. -/
def split_first (v : Url) : Url :=
  v.takeWhile (fun c => !(cred_seps.contains c))

/-- Post-processing a raw group-1 capture: strip, cut at the first
separator, strip again, and keep the value only when its length lies in
`[2, 120]`. -/
def cred_val (text : Url) (p : Url → Option Url) : Option Url :=
  match p text with
  | none => none
  | some g =>
    let v := pyStrip (split_first (pyStrip g))
    if 2 ≤ v.length ∧ v.length ≤ 120 then some v else none

/-- Embedding of `find_credit` (src/bot.py:221-231): walk the ordered
pattern list; on a match, post-process the capture and return it when the
length gate passes, otherwise keep trying later patterns. -/
def find_credit (text : Url) : List (Url → Option Url) → Option Url
  | [] => none
  | p :: rest =>
    match p text with
    | none => find_credit text rest
    | some g =>
      let v := pyStrip (split_first (pyStrip g))
      if 2 ≤ v.length ∧ v.length ≤ 120 then some v else find_credit text rest

/-! ## Per-source state and scheduling (src/bot.py:379-487)

The HTTP transport and the document/link extraction are oracles: a fetched
document is represented by the list of its RSS item link texts (`none` for
an item without a `<link>` element), which is all the concrete scenarios
need; for HTML sources the extraction oracle may be any function, a
superset of the real extractor's behaviours.  `random.shuffle` is an
arbitrary list transformation oracle. -/

/-- Parsed document payload: one entry per RSS `<item>`, holding the text
content of its `<link>` element when present. -/
abbrev Doc := List (Option Url)

/-- Oracles for the external collaborators of the scheduler. -/
structure Env where
  fetch : Url → Option Doc
  extract : Source → Doc → List Url
  shuffle : List Url → List Url
  parse : Url → Option Unit

/-- Embedding of the RSS branch of `extract_links_from_list`
(src/bot.py:134-141): every item whose raw link text is non-empty
contributes its stripped text; the Python `set` is modelled as
insertion-ordered deduplication. -/
def extract_links_rss (items : Doc) : List Url :=
  items.foldl
    (fun acc it =>
      match it with
      | some t =>
        if t ≠ [] then
          (if pyStrip t ∈ acc then acc else acc ++ [pyStrip t])
        else acc
      | none => acc)
    []

/-- Persisted per-source record (src/bot.py:379-385). -/
structure SrcState where
  sent_urls : List Url
  queue_new : List Url
  archive_page : Nat
deriving DecidableEq, Repr

/-- Embedding of `ensure_source_state`'s default record (src/bot.py:379-385). -/
def init_source_state : SrcState :=
  { sent_urls := [], queue_new := [], archive_page := 1 }

/-- Embedding of `add_new_links_to_queue` (src/bot.py:388-394): the `sent`
and `queued` membership sets are snapshots taken before the loop, exactly
as in the source. -/
def add_new_links_to_queue (s : SrcState) (links : List Url) : SrcState :=
  let sent := s.sent_urls
  let queued := s.queue_new
  { s with
    queue_new :=
      links.foldl
        (fun q u => if u ∈ sent ∨ u ∈ queued then q else q ++ [u])
        s.queue_new }

/-- Loop body of `pick_old_link` (src/bot.py:397-417), instrumented with a
trace of `http_get` calls (fetched URL, success flag).  Each iteration
builds the page URL for the current cursor; a failed fetch aborts with
`none`; otherwise the cursor advances to `page + 1` whether or not a link
not yet in `sent` is found among the (shuffled) extracted links. -/
def pick_old_go (env : Env) (source : Source) (sent : List Url) :
    Nat → SrcState → (Option Url × SrcState) × List (Url × Bool)
  | 0, s => ((none, s), [])
  | fuel + 1, s =>
    let page := s.archive_page
    let url := build_paged_url source page
    match env.fetch url with
    | none => ((none, s), [(url, false)])
    | some doc =>
      let links := env.shuffle (env.extract source doc)
      match links.find? (fun u => !(sent.contains u)) with
      | some u => ((some u, { s with archive_page := page + 1 }), [(url, true)])
      | none =>
        let r := pick_old_go env source sent fuel { s with archive_page := page + 1 }
        (r.1, (url, true) :: r.2)

/-- Embedding of `pick_old_link` (src/bot.py:397-417): at most five pages
are scanned per invocation (`for _ in range(1, 6)`). -/
def pick_old_link (env : Env) (source : Source) (s : SrcState) :
    Option Url × SrcState :=
  (pick_old_go env source s.sent_urls 5 s).1

/-- Python truthiness of an `Optional[str]`: `None` and the empty string
are falsy. -/
def truthyOpt : Option Url → Bool
  | none => false
  | some u => !u.isEmpty

/-- Embedding of `pick_link_for_run` (src/bot.py:420-434): mode `"morning"`
pops the new queue first (FIFO) and otherwise delegates to the backlog
scan; every other mode runs the backlog scan first and falls back to the
queue when the scan's result is falsy (`if old:`). -/
def pick_link_for_run (env : Env) (source : Source) (s : SrcState)
    (mode : Url) : Option Url × SrcState :=
  if mode = strL "morning" then
    match s.queue_new with
    | u :: rest => (some u, { s with queue_new := rest })
    | [] => pick_old_link env source s
  else
    let r := pick_old_link env source s
    if truthyOpt r.1 then r
    else
      match r.2.queue_new with
      | u :: rest => (some u, { r.2 with queue_new := rest })
      | [] => (none, r.2)

/-- Per-source notification outcomes of one run (src/bot.py:458-485).  The
successful publish path (photo with caption, or plain message fallback) is
collapsed into one `published` outcome; the two notice texts are
represented by their kind and payload. -/
inductive Msg where
  | noProject (sourceName : Url)
  | parseError (sourceName : Url) (link : Url)
  | published (sourceName : Url) (link : Url)
deriving DecidableEq, Repr

/-- Embedding of one source's refresh-phase iteration (src/bot.py:446-455):
fetch the front listing page and append the unseen extracted links; a
failed fetch leaves the state unchanged. -/
def refresh_step (env : Env) (source : Source) (s : SrcState) : SrcState :=
  match env.fetch source.list_url with
  | none => s
  | some doc => add_new_links_to_queue s (env.extract source doc)

/-- Embedding of one source's publish-phase iteration (src/bot.py:458-485):
pick a link (mutating the state), emit a notice when the pick is falsy
(`if not link:`), otherwise attempt metadata extraction; on extraction
failure emit an error notice and leave `sent_urls` alone; on success
append the link to `sent_urls` and cap the history at its last 5000
entries. -/
def publish_step (env : Env) (source : Source) (mode : Url) (s : SrcState) :
    SrcState × List Msg :=
  let r := pick_link_for_run env source s mode
  match r.1 with
  | none => (r.2, [Msg.noProject source.name])
  | some link =>
    if link = [] then (r.2, [Msg.noProject source.name])
    else
      match env.parse link with
      | none => (r.2, [Msg.parseError source.name link])
      | some _ =>
        let sent1 := r.2.sent_urls ++ [link]
        let sent2 :=
          if 5000 < sent1.length then sent1.drop (sent1.length - 5000) else sent1
        ({ r.2 with sent_urls := sent2 }, [Msg.published source.name link])

/-! ## Generic helper lemmas -/

theorem dropWhile_eq_self_of_all {p : Char → Bool} {l : Url}
    (h : ∀ c ∈ l, p c = false) : l.dropWhile p = l := by
  cases l with
  | nil => rfl
  | cons c t => simp [List.dropWhile, h c (by simp)]

theorem pyStrip_eq_self {l : Url} (h : ∀ c ∈ l, pySpace c = false) :
    pyStrip l = l := by
  unfold pyStrip
  rw [dropWhile_eq_self_of_all h,
      dropWhile_eq_self_of_all (fun c hc => h c (List.mem_reverse.mp hc)),
      List.reverse_reverse]

theorem mem_of_mem_takeWhile {p : Char → Bool} {l : Url} {x : Char}
    (hx : x ∈ l.takeWhile p) : x ∈ l :=
  (List.takeWhile_prefix p).subset hx

theorem contains_eq_false_of_not_mem {l : Url} {x : Char} (h : x ∉ l) :
    l.contains x = false := by
  simpa using h

/-! ## Claim C9: idempotence of `normalize_url` -/

/-- Claim C9 counterexample: `normalize_url` is not idempotent on every
input string.  Stripping the fragment of `"ab #c"` leaves the trailing
space `"ab "`, which only the second application's `strip` removes. -/
theorem C9_cx :
    normalize_url (normalize_url (strL "ab #c")) ≠ normalize_url (strL "ab #c") := by
  decide

/-- Claim C9 (amended): `normalize_url` is idempotent on every input that
contains no whitespace character (in particular on every actual URL);
on arbitrary strings a fragment or query cut can expose trailing
whitespace that only a second application strips. -/
theorem C9_idempotent (u : Url) (h : ∀ c ∈ u, pySpace c = false) :
    normalize_url (normalize_url u) = normalize_url u := by
  have hstrip : pyStrip u = u := pyStrip_eq_self h
  have haws : ∀ c ∈ u.takeWhile (fun c => c != '#'), pySpace c = false :=
    fun c hc => h c (mem_of_mem_takeWhile hc)
  have hahash : ∀ c ∈ u.takeWhile (fun c => c != '#'), (c != '#') = true := by
    intro c hc2
    have h3 := List.mem_takeWhile_imp hc2
    exact h3
  by_cases hc :
      ((u.takeWhile (fun c => c != '#')).contains '?' &&
        !(isSubstr (strL "archdaily.com/search/") (u.takeWhile (fun c => c != '#')))) = true
  · have h1 : normalize_url u =
        (u.takeWhile (fun c => c != '#')).takeWhile (fun c => c != '?') := by
      simp only [normalize_url, hstrip, hc, if_true]
    set r := (u.takeWhile (fun c => c != '#')).takeWhile (fun c => c != '?') with hr
    have hrws : ∀ c ∈ r, pySpace c = false :=
      fun c hc' => haws c (mem_of_mem_takeWhile hc')
    have hrhash : ∀ c ∈ r, (c != '#') = true :=
      fun c hc' => hahash c (mem_of_mem_takeWhile hc')
    have hrq : ∀ c ∈ r, (c != '?') = true := by
      intro c hc2
      have h3 := List.mem_takeWhile_imp hc2
      exact h3
    have hrq' : '?' ∉ r := fun hmem => by simpa using hrq '?' hmem
    have h2 : r.takeWhile (fun c => c != '#') = r :=
      List.takeWhile_eq_self_iff.mpr hrhash
    rw [h1]
    simp only [normalize_url, pyStrip_eq_self hrws, h2,
      contains_eq_false_of_not_mem hrq', Bool.false_and]
    simp
  · have h1 : normalize_url u = u.takeWhile (fun c => c != '#') := by
      simp only [normalize_url, hstrip, if_neg hc]
    have h2 : (u.takeWhile (fun c => c != '#')).takeWhile (fun c => c != '#') =
        u.takeWhile (fun c => c != '#') :=
      List.takeWhile_eq_self_iff.mpr hahash
    rw [h1]
    simp only [normalize_url, pyStrip_eq_self haws, h2, if_neg hc]

/-- Witness for the amended claim C9 at a concrete URL with both a query
and a fragment. -/
theorem C9_witness :
    (∀ c ∈ strL "https://x.io/a?b=1#frag", pySpace c = false) ∧
      normalize_url (normalize_url (strL "https://x.io/a?b=1#frag")) =
        normalize_url (strL "https://x.io/a?b=1#frag") :=
  ⟨by decide, C9_idempotent (strL "https://x.io/a?b=1#frag") (by decide)⟩

/-! ## Claim C7: description truncation -/

theorem pyRStrip_length_le (l : Url) : (pyRStrip l).length ≤ l.length := by
  unfold pyRStrip
  calc (l.reverse.dropWhile pySpace).reverse.length
      = (l.reverse.dropWhile pySpace).length := List.length_reverse _
    _ ≤ l.reverse.length := (List.dropWhile_sublist pySpace).length_le
    _ = l.length := List.length_reverse _

theorem pyRStrip_eq_self {l : Url}
    (h : ∀ c, l.getLast? = some c → pySpace c = false) : pyRStrip l = l := by
  unfold pyRStrip
  cases hrev : l.reverse with
  | nil =>
    have : l = [] := List.reverse_eq_nil_iff.mp hrev
    simp [this]
  | cons x t =>
    have hx : l.getLast? = some x := by
      rw [← List.head?_reverse, hrev]; rfl
    have hx' : pySpace x = false := h x hx
    rw [List.dropWhile_cons_of_neg (by simp [hx']), ← hrev, List.reverse_reverse]

set_option maxRecDepth 10000 in
/-- Claim C7 counterexample: a 321-character normalized description whose
317th character is a space is stored as 317 characters (316 plus the
ellipsis), not as its first 317 characters followed by the ellipsis: the
code right-strips the 317-character prefix before appending the marker. -/
theorem C7_cx :
    (collapse_ws (pyStrip (List.replicate 316 'a' ++ [' '] ++ List.replicate 4 'b'))).length
        = 321 ∧
      (trim_desc (List.replicate 316 'a' ++ [' '] ++ List.replicate 4 'b')).length = 317 ∧
      trim_desc (List.replicate 316 'a' ++ [' '] ++ List.replicate 4 'b') ≠
        (collapse_ws (pyStrip (List.replicate 316 'a' ++ [' '] ++ List.replicate 4 'b'))).take 317
          ++ ['…'] := by
  decide

/-- Claim C7 (amended): when the whitespace-normalized description exceeds
320 characters, the stored description is its first 317 characters with
trailing whitespace removed, followed by one ellipsis character — at most
318 characters, and exactly the claimed 317-plus-ellipsis form whenever
the 317-character prefix does not end in whitespace; a normalized
description of at most 320 characters is stored unchanged. -/
theorem C7_truncation (desc : Url) :
    (320 < (collapse_ws (pyStrip desc)).length →
      trim_desc desc = pyRStrip ((collapse_ws (pyStrip desc)).take 317) ++ ['…'] ∧
      (trim_desc desc).length ≤ 318 ∧
      ((∀ c, ((collapse_ws (pyStrip desc)).take 317).getLast? = some c → pySpace c = false) →
        trim_desc desc = (collapse_ws (pyStrip desc)).take 317 ++ ['…'] ∧
        (trim_desc desc).length = 318)) ∧
    ((collapse_ws (pyStrip desc)).length ≤ 320 →
      trim_desc desc = collapse_ws (pyStrip desc)) := by
  constructor
  · intro hlen
    have heq : trim_desc desc =
        pyRStrip ((collapse_ws (pyStrip desc)).take 317) ++ ['…'] := by
      unfold trim_desc
      rw [if_pos hlen]
    have htake : ((collapse_ws (pyStrip desc)).take 317).length = 317 := by
      rw [List.length_take]
      omega
    refine ⟨heq, ?_, ?_⟩
    · rw [heq, List.length_append]
      have := pyRStrip_length_le ((collapse_ws (pyStrip desc)).take 317)
      simp only [List.length_singleton]
      omega
    · intro hns
      have hself := pyRStrip_eq_self hns
      refine ⟨by rw [heq, hself], ?_⟩
      rw [heq, hself, List.length_append, htake]
      rfl
  · intro hlen
    unfold trim_desc
    rw [if_neg (by omega)]

set_option maxRecDepth 10000 in
/-- Witness for the amended claim C7: a 400-character description with no
whitespace at the cut is truncated to exactly 318 characters, and a short
one is kept as is. -/
theorem C7_witness :
    (320 < (collapse_ws (pyStrip (List.replicate 400 'x'))).length ∧
      trim_desc (List.replicate 400 'x') =
        (collapse_ws (pyStrip (List.replicate 400 'x'))).take 317 ++ ['…'] ∧
      (trim_desc (List.replicate 400 'x')).length = 318) ∧
    ((collapse_ws (pyStrip (strL "short description"))).length ≤ 320 ∧
      trim_desc (strL "short description") = collapse_ws (pyStrip (strL "short description"))) :=
  ⟨⟨by decide,
    ((C7_truncation (List.replicate 400 'x')).1 (by decide)).2.2 (by decide)⟩,
   by decide,
   (C7_truncation (strL "short description")).2 (by decide)⟩

/-! ## Claim C8: credit extraction -/

/-- Claim C8 counterexample: with an ordered pattern list whose first
pattern matches the text but captures a 1-character value (below the
length gate), `find_credit` does not return "absent": it falls through
and returns the second pattern's value.  (With the real tables this is
e.g. `"Architects:\s*([^\n]+)"` capturing a one-letter name followed by
`"Design(?:er|ers)?:\s*([^\n]+)"` capturing a valid studio name.) -/
theorem C8_cx :
    (fun _ => some (strL "a") : Url → Option Url) (strL "T") = some (strL "a") ∧
      (pyStrip (split_first (pyStrip (strL "a")))).length < 2 ∧
      find_credit (strL "T") [fun _ => some (strL "a"), fun _ => some (strL "Studio X")] =
        some (strL "Studio X") := by
  decide

/-- Claim C8 (amended): `find_credit` returns the post-processed capture of
the first pattern in order whose trimmed, separator-cut value has length
in `[2, 120]` — not of the first pattern that merely matches — and is
absent exactly when no pattern yields such a value. -/
theorem C8_first_valid (text : Url) (patterns : List (Url → Option Url)) :
    find_credit text patterns = (patterns.filterMap (cred_val text)).head? := by
  induction patterns with
  | nil => rfl
  | cons p rest ih =>
    simp only [find_credit, List.filterMap_cons, cred_val]
    cases hp : p text with
    | none => simpa using ih
    | some g =>
      by_cases hv : 2 ≤ (pyStrip (split_first (pyStrip g))).length ∧
          (pyStrip (split_first (pyStrip g))).length ≤ 120
      · simp [hv]
      · simp [hv, ih]

/-! ## Claim C3: pagination -/

theorem digitChar_toNat : ∀ d, d < 10 → (digitChar d).toNat = 48 + d := by decide

theorem digitChar_isDigit : ∀ d, d < 10 → (digitChar d).isDigit = true := by decide

theorem digitsVal_concat (a : Url) (c : Char) :
    digitsVal (a ++ [c]) = 10 * digitsVal a + (c.toNat - 48) := by
  unfold digitsVal
  rw [List.foldl_append]
  rfl

theorem natDigitsGo_val : ∀ fuel n, n ≤ fuel → digitsVal (natDigitsGo fuel n) = n := by
  intro fuel
  induction fuel with
  | zero =>
    intro n hn
    interval_cases n
    rfl
  | succ fuel ih =>
    intro n hn
    by_cases h0 : n = 0
    · simp [natDigitsGo, h0, digitsVal]
    · have hdiv : n / 10 ≤ fuel := by
        have := Nat.div_lt_self (Nat.pos_of_ne_zero h0) (by norm_num : 1 < 10)
        omega
      have hmod : n % 10 < 10 := Nat.mod_lt n (by norm_num)
      simp only [natDigitsGo, h0, if_false]
      rw [digitsVal_concat, ih (n / 10) hdiv, digitChar_toNat (n % 10) hmod]
      omega

theorem pyStr_inj {n m : Nat} (hn : n ≠ 0) (hm : m ≠ 0) (h : pyStr n = pyStr m) :
    n = m := by
  unfold pyStr at h
  rw [if_neg hn, if_neg hm] at h
  have := congrArg digitsVal h
  rwa [natDigitsGo_val n n le_rfl, natDigitsGo_val m m le_rfl] at this

theorem natDigitsGo_digits : ∀ fuel n c, c ∈ natDigitsGo fuel n → c.isDigit = true := by
  intro fuel
  induction fuel with
  | zero => intro n c hc; simp [natDigitsGo] at hc
  | succ fuel ih =>
    intro n c hc
    by_cases h0 : n = 0
    · simp [natDigitsGo, h0] at hc
    · simp only [natDigitsGo, h0, if_false, List.mem_append, List.mem_singleton] at hc
      rcases hc with hc | hc
      · exact ih (n / 10) c hc
      · rw [hc]
        exact digitChar_isDigit (n % 10) (Nat.mod_lt n (by norm_num))

theorem pyStr_digits {n : Nat} {c : Char} (hc : c ∈ pyStr n) : c.isDigit = true := by
  unfold pyStr at hc
  by_cases h0 : n = 0
  · rw [if_pos h0] at hc
    simp at hc
    rw [hc]
    decide
  · rw [if_neg h0] at hc
    exact natDigitsGo_digits n n c hc

/-- Cancellation of a digit prefix: a digit run followed by a string whose
head is not a digit determines the split. -/
theorem digits_prefix_cancel :
    ∀ (a : Url), (∀ c ∈ a, c.isDigit = true) →
    ∀ (b : Url), (∀ c ∈ b, c.isDigit = true) →
    ∀ (s t : Url), (∀ c, s.head? = some c → c.isDigit = false) →
    (∀ c, t.head? = some c → c.isDigit = false) →
    a ++ s = b ++ t → a = b := by
  intro a
  induction a with
  | nil =>
    intro _ b hb s t hs _ h
    cases b with
    | nil => rfl
    | cons y b' =>
      exfalso
      have h2 : s = y :: (b' ++ t) := by simpa using h
      have hy : s.head? = some y := by rw [h2]; rfl
      have := hs y hy
      have := hb y (by simp)
      simp_all
  | cons x a' ih =>
    intro ha b hb s t hs ht h
    cases b with
    | nil =>
      exfalso
      have h2 : t = x :: (a' ++ s) := by simpa using h.symm
      have hx : t.head? = some x := by rw [h2]; rfl
      have := ht x hx
      have := ha x (by simp)
      simp_all
    | cons y b' =>
      simp only [List.cons_append, List.cons.injEq] at h
      obtain ⟨hxy, h'⟩ := h
      rw [hxy]
      have := ih (fun c hc => ha c (by simp [hc])) b'
        (fun c hc => hb c (by simp [hc])) s t hs ht h'
      rw [this]

theorem head?_dropWhile_false {p : Char → Bool} :
    ∀ {l : Url} {c : Char}, ((l.dropWhile p).head? = some c) → p c = false := by
  intro l
  induction l with
  | nil => intro c hc; simp [List.dropWhile] at hc
  | cons x t ih =>
    intro c hc
    by_cases hx : p x = true
    · rw [List.dropWhile_cons_of_pos hx] at hc
      exact ih hc
    · rw [List.dropWhile_cons_of_neg (by simp [hx])] at hc
      simp only [List.head?_cons, Option.some.injEq] at hc
      rw [← hc]
      simpa using hx

theorem matchPage_some {l ds tail : Url} (h : matchPage l = some (ds, tail)) :
    l = strL "page=" ++ ds ++ tail ∧ ds ≠ [] ∧
      (∀ c ∈ ds, c.isDigit = true) ∧
      (∀ c, tail.head? = some c → c.isDigit = false) := by
  unfold matchPage at h
  by_cases hp : (strL "page=").isPrefixOf l
  · rw [if_pos hp] at h
    by_cases hds : (l.drop 5).takeWhile Char.isDigit = []
    · rw [if_pos hds] at h
      exact absurd h (by simp)
    · rw [if_neg hds] at h
      simp only [Option.some.injEq, Prod.mk.injEq] at h
      obtain ⟨hds', htail⟩ := h
      have hpre : strL "page=" ++ l.drop 5 = l :=
        List.prefix_iff_eq_append.mp (List.isPrefixOf_iff_prefix.mp hp)
      refine ⟨?_, ?_, ?_, ?_⟩
      · rw [← hds', ← htail, List.append_assoc, List.takeWhile_append_dropWhile, hpre]
      · rw [← hds']; exact hds
      · intro c hc
        rw [← hds'] at hc
        have h3 := List.mem_takeWhile_imp hc
        exact h3
      · intro c hc
        rw [← htail] at hc
        exact head?_dropWhile_false hc
  · rw [if_neg hp] at h
    exact absurd h (by simp)

theorem subPageGo_head (page : Nat) :
    ∀ fuel (l : Url), (subPageGo page fuel l).head? = l.head? := by
  intro fuel l
  match fuel, l with
  | 0, l => rfl
  | fuel + 1, [] => rfl
  | fuel + 1, c :: rest =>
    simp only [subPageGo]
    by_cases hc : (c == '?' || c == '&') = true
    · rw [if_pos hc]
      cases hm : matchPage rest with
      | none => rfl
      | some pr => rfl
    · rw [if_neg hc]
      rfl

theorem subPageGo_inj :
    ∀ fuel (l : Url), l.length ≤ fuel → hasPageParam l = true →
      ∀ {n m : Nat}, n ≠ 0 → m ≠ 0 →
        subPageGo n fuel l = subPageGo m fuel l → n = m := by
  intro fuel
  induction fuel with
  | zero =>
    intro l hlen hpp n m _ _ _
    have : l = [] := List.length_eq_zero.mp (Nat.le_zero.mp hlen)
    rw [this] at hpp
    exact absurd hpp (by simp [hasPageParam])
  | succ fuel ih =>
    intro l hlen hpp n m hn hm heq
    cases l with
    | nil => exact absurd hpp (by simp [hasPageParam])
    | cons c rest =>
      by_cases hc : (c == '?' || c == '&') = true
      · cases hmp : matchPage rest with
        | some pr =>
          obtain ⟨ds, tail⟩ := pr
          obtain ⟨hrest, -, -, htail⟩ := matchPage_some hmp
          simp only [subPageGo, if_pos hc, hmp, List.cons.injEq, true_and] at heq
          have heq' : pyStr n ++ subPageGo n fuel tail =
              pyStr m ++ subPageGo m fuel tail := by
            have heq2 : strL "page=" ++ (pyStr n ++ subPageGo n fuel tail) =
                strL "page=" ++ (pyStr m ++ subPageGo m fuel tail) := by
              simpa only [List.append_assoc] using heq
            exact List.append_cancel_left heq2
          have hlt : tail.length ≤ fuel := by
            have h5 : (strL "page=").length = 5 := by decide
            have hrl : rest.length = 5 + ds.length + tail.length := by
              rw [hrest, List.length_append, List.length_append, h5]
            simp only [List.length_cons] at hlen
            omega
          have hds : pyStr n = pyStr m := by
            refine digits_prefix_cancel (pyStr n) (fun c hc => pyStr_digits hc)
              (pyStr m) (fun c hc => pyStr_digits hc)
              (subPageGo n fuel tail) (subPageGo m fuel tail) ?_ ?_ heq'
            · intro c hc
              rw [subPageGo_head] at hc
              exact htail c hc
            · intro c hc
              rw [subPageGo_head] at hc
              exact htail c hc
          exact pyStr_inj hn hm hds
        | none =>
          have hpp' : hasPageParam rest = true := by
            simpa [hasPageParam, hmp] using hpp
          simp only [subPageGo, if_pos hc, hmp, List.cons.injEq, true_and] at heq
          have hrlen : rest.length ≤ fuel := by
            simp only [List.length_cons] at hlen
            omega
          exact ih rest hrlen hpp' hn hm heq
      · have hpp' : hasPageParam rest = true := by
          simpa [hasPageParam, hc] using hpp
        simp only [subPageGo, if_neg hc, List.cons.injEq, true_and] at heq
        have hrlen : rest.length ≤ fuel := by
          simp only [List.length_cons] at hlen
          omega
        exact ih rest hrlen hpp' hn hm heq

theorem pageAppend_inj (E : Url) {n m : Nat} (hn : n ≠ 0) (hm : m ≠ 0)
    (h : E ++ pyStr n = E ++ pyStr m) : n = m :=
  pyStr_inj hn hm (List.append_cancel_left h)

theorem pageAppendSuf_inj (E suf : Url) {n m : Nat} (hn : n ≠ 0) (hm : m ≠ 0)
    (h : E ++ pyStr n ++ suf = E ++ pyStr m ++ suf) : n = m :=
  pageAppend_inj E hn hm (List.append_cancel_right h)

/-- Claim C3 counterexample: for an `archdaily_search_page` source whose
front listing URL already carries `page=2`, page 1 and page 2 yield the
same URL — the `re.sub` substitution of page 2 into the existing `page=2`
parameter is the identity, and page 1 returns the listing URL verbatim. -/
theorem C3_cx :
    build_paged_url
        { id := strL "ad", name := strL "AD",
          list_url := strL "https://www.archdaily.com/search/projects?page=2",
          paging := strL "archdaily_search_page" } 1 =
      build_paged_url
        { id := strL "ad", name := strL "AD",
          list_url := strL "https://www.archdaily.com/search/projects?page=2",
          paging := strL "archdaily_search_page" } 2 ∧
    (1 : Nat) ≠ 2 := by
  constructor
  · decide
  · decide

/-- Claim C3 (amended): for every source, page 1 returns the listing URL
unchanged and `build_paged_url` is a pure deterministic function; distinct
page numbers at least 2 always yield distinct URLs, but page 1 can collide
with a deeper page when the listing URL itself already carries a matching
`page=` query parameter. -/
theorem C3_pagination (src : Source) :
    build_paged_url src 1 = src.list_url ∧
    (∀ p, build_paged_url src p = build_paged_url src p) ∧
    (∀ n m, 2 ≤ n → 2 ≤ m → n ≠ m →
      build_paged_url src n ≠ build_paged_url src m) := by
  refine ⟨by simp [build_paged_url], fun p => rfl, ?_⟩
  intro n m hn hm hnm heq
  apply hnm
  have hn1 : ¬ n ≤ 1 := by omega
  have hm1 : ¬ m ≤ 1 := by omega
  have hn0 : n ≠ 0 := by omega
  have hm0 : m ≠ 0 := by omega
  unfold build_paged_url at heq
  rw [if_neg hn1, if_neg hm1] at heq
  by_cases h1 : src.paging = strL "wp_page"
  · simp only [if_pos h1] at heq
    exact pageAppendSuf_inj _ _ hn0 hm0 heq
  · simp only [if_neg h1] at heq
    by_cases h2 : src.paging = strL "dezeen_page"
    · simp only [if_pos h2] at heq
      exact pageAppendSuf_inj _ _ hn0 hm0 heq
    · simp only [if_neg h2] at heq
      by_cases h3 : src.paging = strL "archdaily_search_page"
      · simp only [if_pos h3] at heq
        by_cases h4 : src.list_url.contains '?' = true
        · simp only [if_pos h4] at heq
          by_cases h5 : hasPageParam src.list_url = true
          · simp only [if_pos h5] at heq
            exact subPageGo_inj src.list_url.length src.list_url le_rfl h5 hn0 hm0
              (by simpa [subPage] using heq)
          · simp only [if_neg h5] at heq
            exact pageAppend_inj (src.list_url ++ strL "&page=") hn0 hm0 heq
        · simp only [if_neg h4] at heq
          exact pageAppend_inj (src.list_url ++ strL "?page=") hn0 hm0 heq
      · simp only [if_neg h3] at heq
        by_cases h6 : src.paging = strL "archdaily_category_page"
        · simp only [if_pos h6] at heq
          exact pageAppend_inj (rstripSlashes src.list_url ++ strL "/page/") hn0 hm0 heq
        · simp only [if_neg h6] at heq
          exact pageAppendSuf_inj _ _ hn0 hm0 heq

/-- Witness for the amended claim C3 on a concrete WordPress-style source:
page 1 is the front page and pages 2 and 3 differ. -/
theorem C3_witness :
    (2 ≤ 2 ∧ 2 ≤ 3 ∧ (2 : Nat) ≠ 3) ∧
      build_paged_url
          { id := strL "lz", name := strL "LZ",
            list_url := strL "https://landezine.com/", paging := strL "wp_page" } 1 =
        strL "https://landezine.com/" ∧
      build_paged_url
          { id := strL "lz", name := strL "LZ",
            list_url := strL "https://landezine.com/", paging := strL "wp_page" } 2 ≠
        build_paged_url
          { id := strL "lz", name := strL "LZ",
            list_url := strL "https://landezine.com/", paging := strL "wp_page" } 3 :=
  ⟨⟨by decide, by decide, by decide⟩,
    (C3_pagination _).1,
    (C3_pagination _).2.2 2 3 (by decide) (by decide) (by decide)⟩

/-! ## Claim C4: backlog scan bound -/

/-- Loop invariant of the backlog scan: the fetch trace has at most `fuel`
entries, the cursor advances by exactly the number of successful fetches,
only the last fetch can be a failure, any failure forces a `none` result,
and a `none` result without failure means the fuel was exhausted. -/
theorem pick_old_go_spec (env : Env) (source : Source) (sent : List Url) :
    ∀ fuel (s : SrcState),
      (pick_old_go env source sent fuel s).2.length ≤ fuel ∧
      (pick_old_go env source sent fuel s).1.2.archive_page =
        s.archive_page + (pick_old_go env source sent fuel s).2.countP (fun e => e.2) ∧
      (∀ e ∈ (pick_old_go env source sent fuel s).2.dropLast, e.2 = true) ∧
      ((∃ e ∈ (pick_old_go env source sent fuel s).2, e.2 = false) →
        (pick_old_go env source sent fuel s).1.1 = none) ∧
      (((pick_old_go env source sent fuel s).1.1 = none ∧
          ∀ e ∈ (pick_old_go env source sent fuel s).2, e.2 = true) →
        (pick_old_go env source sent fuel s).2.length = fuel) := by
  intro fuel
  induction fuel with
  | zero =>
    intro s
    simp [pick_old_go]
  | succ fuel ih =>
    intro s
    cases hf : env.fetch (build_paged_url source s.archive_page) with
    | none =>
      simp only [pick_old_go, hf]
      refine ⟨by simp, by simp, by simp, by simp, ?_⟩
      rintro ⟨-, hall⟩
      have h1 := hall (build_paged_url source s.archive_page, false) (by simp)
      simp at h1
    | some doc =>
      cases hfind : (env.shuffle (env.extract source doc)).find?
          (fun u => !(sent.contains u)) with
      | some u =>
        simp only [pick_old_go, hf, hfind]
        refine ⟨by simp, by simp, by simp, ?_, ?_⟩
        · rintro ⟨e, he, hfalse⟩
          simp only [List.mem_singleton] at he
          rw [he] at hfalse
          exact absurd hfalse (by simp)
        · rintro ⟨hnone, -⟩
          exact absurd hnone (by simp)
      | none =>
        obtain ⟨ih1, ih2, ih3, ih4, ih5⟩ := ih { s with archive_page := s.archive_page + 1 }
        simp only [pick_old_go, hf, hfind]
        refine ⟨?_, ?_, ?_, ?_, ?_⟩
        · simpa using ih1
        · simp only [List.countP_cons, if_pos]
          simp at ih2 ⊢
          omega
        · intro e he
          cases hr2 : (pick_old_go env source sent fuel
              { s with archive_page := s.archive_page + 1 }).2 with
          | nil => rw [hr2] at he; simp at he
          | cons b t =>
            rw [hr2] at he
            rw [List.dropLast_cons₂] at he
            rcases List.mem_cons.mp he with h | h
            · rw [h]
            · apply ih3
              rw [hr2]
              exact h
        · rintro ⟨e, he, hfalse⟩
          rcases List.mem_cons.mp he with h | h
          · rw [h] at hfalse
            exact absurd hfalse (by simp)
          · exact ih4 ⟨e, h, hfalse⟩
        · rintro ⟨hnone, hall⟩
          have := ih5 ⟨hnone, fun e he => hall e (List.mem_cons_of_mem _ he)⟩
          simp [this]

/-- Backlog scan touches only the `archive_page` cursor: the sent history
and the new queue are left unchanged. -/
theorem pick_old_go_state (env : Env) (source : Source) (sent : List Url) :
    ∀ fuel (s : SrcState),
      (pick_old_go env source sent fuel s).1.2.sent_urls = s.sent_urls ∧
      (pick_old_go env source sent fuel s).1.2.queue_new = s.queue_new := by
  intro fuel
  induction fuel with
  | zero => intro s; simp [pick_old_go]
  | succ fuel ih =>
    intro s
    cases hf : env.fetch (build_paged_url source s.archive_page) with
    | none => simp only [pick_old_go, hf]; exact ⟨by trivial, by trivial⟩
    | some doc =>
      cases hfind : (env.shuffle (env.extract source doc)).find?
          (fun u => !(sent.contains u)) with
      | some u => simp only [pick_old_go, hf, hfind]; exact ⟨by trivial, by trivial⟩
      | none =>
        obtain ⟨ih1, ih2⟩ := ih { s with archive_page := s.archive_page + 1 }
        simp only [pick_old_go, hf, hfind]
        exact ⟨ih1, ih2⟩

/-- Claim C4: each `pick_old_link` invocation issues at most 5 fetches; the
cursor advances by exactly one per successfully fetched page (hence never
decreases); a failed fetch can only be the last fetch of the trace and
forces an immediate `none` result with the cursor keeping the value
recorded after the previous successful pages; and a `none` result with no
fetch failure means all 5 iterations were exhausted without an unseen
link. -/
theorem C4_backlog_bound (env : Env) (source : Source) (s : SrcState) :
    (pick_old_go env source s.sent_urls 5 s).2.length ≤ 5 ∧
    (pick_old_go env source s.sent_urls 5 s).1.2.archive_page =
      s.archive_page +
        (pick_old_go env source s.sent_urls 5 s).2.countP (fun e => e.2) ∧
    s.archive_page ≤ (pick_old_go env source s.sent_urls 5 s).1.2.archive_page ∧
    (∀ e ∈ (pick_old_go env source s.sent_urls 5 s).2.dropLast, e.2 = true) ∧
    ((∃ e ∈ (pick_old_go env source s.sent_urls 5 s).2, e.2 = false) →
      (pick_old_link env source s).1 = none) ∧
    (((pick_old_link env source s).1 = none ∧
        ∀ e ∈ (pick_old_go env source s.sent_urls 5 s).2, e.2 = true) →
      (pick_old_go env source s.sent_urls 5 s).2.length = 5) := by
  obtain ⟨h1, h2, h3, h4, h5⟩ := pick_old_go_spec env source s.sent_urls 5 s
  exact ⟨h1, h2, by rw [h2]; exact Nat.le_add_right _ _, h3, h4, h5⟩

/-- Witness for claim C4: with a transport that fails every fetch, the
backlog scan records one failed fetch and returns `none`. -/
theorem C4_witness :
    (∃ e ∈ (pick_old_go
        { fetch := fun _ => none, extract := fun _ _ => [],
          shuffle := fun l => l, parse := fun _ => none }
        { id := strL "x", name := strL "X", list_url := strL "http://x/",
          paging := strL "wp_page" }
        init_source_state.sent_urls 5 init_source_state).2, e.2 = false) ∧
      (pick_old_link
        { fetch := fun _ => none, extract := fun _ _ => [],
          shuffle := fun l => l, parse := fun _ => none }
        { id := strL "x", name := strL "X", list_url := strL "http://x/",
          paging := strL "wp_page" }
        init_source_state).1 = none :=
  ⟨by decide,
    (C4_backlog_bound
      { fetch := fun _ => none, extract := fun _ _ => [],
        shuffle := fun l => l, parse := fun _ => none }
      { id := strL "x", name := strL "X", list_url := strL "http://x/",
        paging := strL "wp_page" }
      init_source_state).2.2.2.2.1 (by decide)⟩

/-! ## Claims C5 and C10: run-mode selection -/

theorem truthyOpt_false_iff (o : Option Url) :
    truthyOpt o = false ↔ o = none ∨ o = some [] := by
  cases o with
  | none => simp [truthyOpt]
  | some u => cases u <;> simp [truthyOpt]

theorem pick_run_morning_cons (env : Env) (source : Source) (s : SrcState)
    {u : Url} {rest : List Url} (hq : s.queue_new = u :: rest) :
    pick_link_for_run env source s (strL "morning") =
      (some u, { s with queue_new := rest }) := by
  simp only [pick_link_for_run, if_pos rfl, hq]
  rfl

theorem pick_run_morning_nil (env : Env) (source : Source) (s : SrcState)
    (hq : s.queue_new = []) :
    pick_link_for_run env source s (strL "morning") = pick_old_link env source s := by
  simp only [pick_link_for_run, if_pos rfl, hq]
  rfl

theorem pick_run_other_truthy (env : Env) (source : Source) (s : SrcState)
    {mode : Url} (hmode : mode ≠ strL "morning")
    (ht : truthyOpt (pick_old_link env source s).1 = true) :
    pick_link_for_run env source s mode = pick_old_link env source s := by
  simp only [pick_link_for_run, if_neg hmode, ht, if_true]

theorem pick_run_other_falsy_cons (env : Env) (source : Source) (s : SrcState)
    {mode : Url} (hmode : mode ≠ strL "morning")
    (hf : truthyOpt (pick_old_link env source s).1 = false)
    {u : Url} {rest : List Url}
    (hq : (pick_old_link env source s).2.queue_new = u :: rest) :
    pick_link_for_run env source s mode =
      (some u, { (pick_old_link env source s).2 with queue_new := rest }) := by
  simp only [pick_link_for_run, if_neg hmode, hf, Bool.false_eq_true, if_false, hq]

theorem pick_run_other_falsy_nil (env : Env) (source : Source) (s : SrcState)
    {mode : Url} (hmode : mode ≠ strL "morning")
    (hf : truthyOpt (pick_old_link env source s).1 = false)
    (hq : (pick_old_link env source s).2.queue_new = []) :
    pick_link_for_run env source s mode = (none, (pick_old_link env source s).2) := by
  simp only [pick_link_for_run, if_neg hmode, hf, Bool.false_eq_true, if_false, hq]

/-- Concrete oracle set used by the run-mode counterexamples: every fetch
returns an RSS document with a single whitespace-only `<link>` text, whose
extraction (src/bot.py:134-141) yields the empty string after `strip()`. -/
def rss_blank_env : Env :=
  { fetch := fun _ => some [some [' ']],
    extract := fun src doc =>
      if src.paging = strL "rss" then extract_links_rss doc else [],
    shuffle := fun l => l,
    parse := fun _ => some () }

/-- RSS source used by the run-mode counterexamples. -/
def rss_src : Source :=
  { id := strL "w", name := strL "W", list_url := strL "http://w/feed",
    paging := strL "rss" }

/-- Claim C5 counterexample: with a backlog page whose only extracted link
is the empty string (a whitespace-only RSS `<link>`), `pick_old_link`
returns `some ""` — not `none` — yet `pick_link_for_run` in the non-morning
mode does not return it: Python's `if old:` treats the empty string as
falsy and the first queue element is popped instead. -/
theorem C5_cx :
    (pick_old_link rss_blank_env rss_src
        { sent_urls := [], queue_new := [strL "http://w/y"], archive_page := 1 }).1 =
      some [] ∧
    (pick_old_link rss_blank_env rss_src
        { sent_urls := [], queue_new := [strL "http://w/y"], archive_page := 1 }).1 ≠
      none ∧
    (pick_link_for_run rss_blank_env rss_src
        { sent_urls := [], queue_new := [strL "http://w/y"], archive_page := 1 }
        (strL "evening")).1 = some (strL "http://w/y") := by
  refine ⟨by decide, by decide, by decide⟩

/-- Claim C5 (amended): in mode `"morning"` the first queue element is
popped (FIFO) when the queue is non-empty and otherwise the backlog scan's
result is returned; in any other mode the backlog scan runs first and its
result is returned when it is a non-empty string, the queue is popped when
the scan's result is falsy (`none` **or the empty string**) and the queue
is non-empty, and `none` is returned when both are exhausted. -/
theorem C5_pick_for_run (env : Env) (source : Source) (s : SrcState) :
    (∀ u rest, s.queue_new = u :: rest →
      pick_link_for_run env source s (strL "morning") =
        (some u, { s with queue_new := rest })) ∧
    (s.queue_new = [] →
      pick_link_for_run env source s (strL "morning") = pick_old_link env source s) ∧
    (∀ u, (pick_old_link env source s).1 = some u → u ≠ [] →
      pick_link_for_run env source s (strL "evening") = pick_old_link env source s) ∧
    (((pick_old_link env source s).1 = none ∨ (pick_old_link env source s).1 = some []) →
      (∀ u rest, (pick_old_link env source s).2.queue_new = u :: rest →
        pick_link_for_run env source s (strL "evening") =
          (some u, { (pick_old_link env source s).2 with queue_new := rest })) ∧
      ((pick_old_link env source s).2.queue_new = [] →
        pick_link_for_run env source s (strL "evening") =
          (none, (pick_old_link env source s).2))) := by
  have hev : strL "evening" ≠ strL "morning" := by decide
  refine ⟨?_, ?_, ?_, ?_⟩
  · intro u rest hq
    exact pick_run_morning_cons env source s hq
  · intro hq
    exact pick_run_morning_nil env source s hq
  · intro u hu hne
    apply pick_run_other_truthy env source s hev
    rw [hu]
    cases u with
    | nil => exact absurd rfl hne
    | cons c t => rfl
  · intro hfalsy
    have hf : truthyOpt (pick_old_link env source s).1 = false :=
      (truthyOpt_false_iff _).mpr hfalsy
    exact ⟨fun u rest hq => pick_run_other_falsy_cons env source s hev hf hq,
      fun hq => pick_run_other_falsy_nil env source s hev hf hq⟩

/-- Witness for the amended claim C5 at concrete inputs: the morning pop and
the evening fall-through to the queue on a failed scan. -/
theorem C5_witness :
    ({ sent_urls := [], queue_new := [strL "http://w/y"], archive_page := 1 :
        SrcState }.queue_new = strL "http://w/y" :: []) ∧
      pick_link_for_run rss_blank_env rss_src
          { sent_urls := [], queue_new := [strL "http://w/y"], archive_page := 1 }
          (strL "morning") =
        (some (strL "http://w/y"),
          { sent_urls := [], queue_new := [], archive_page := 1 }) :=
  ⟨rfl,
    (C5_pick_for_run rss_blank_env rss_src
        { sent_urls := [], queue_new := [strL "http://w/y"], archive_page := 1 }).1
      (strL "http://w/y") [] rfl⟩

/-- Claim C10 counterexample: an unrecognized mode string is treated as
prefer-old, but "pops `queue_new` only if `pick_old_link` returns none" is
not exact — here the scan returns `some ""` (not `none`) and the queue is
still popped, because the code tests Python truthiness, not `is None`. -/
theorem C10_cx :
    (pick_old_link rss_blank_env rss_src
        { sent_urls := [], queue_new := [strL "http://w/z"], archive_page := 3 }).1 ≠
      none ∧
    (pick_link_for_run rss_blank_env rss_src
        { sent_urls := [], queue_new := [strL "http://w/z"], archive_page := 3 }
        (strL "banana")).1 = some (strL "http://w/z") := by
  refine ⟨by decide, by decide⟩

/-- Claim C10 (amended): every mode string other than the exact `"morning"`
(including unrecognized values) selects the prefer-old path and behaves
exactly like mode `"evening"`: the backlog scan runs first, its result is
returned when truthy, and the queue is popped only when the scan's result
is `none` or the empty string; only the exact string `"morning"` selects
the prefer-new path. -/
theorem C10_mode_dispatch (env : Env) (source : Source) (s : SrcState) :
    (∀ mode : Url, mode ≠ strL "morning" →
      pick_link_for_run env source s mode =
        pick_link_for_run env source s (strL "evening")) ∧
    (∀ mode : Url, mode ≠ strL "morning" →
      truthyOpt (pick_old_link env source s).1 = true →
      pick_link_for_run env source s mode = pick_old_link env source s) ∧
    (∀ u rest, s.queue_new = u :: rest →
      pick_link_for_run env source s (strL "morning") =
        (some u, { s with queue_new := rest })) := by
  refine ⟨?_, ?_, ?_⟩
  · intro mode hmode
    simp only [pick_link_for_run, if_neg hmode,
      if_neg (show strL "evening" ≠ strL "morning" by decide)]
  · intro mode hmode ht
    exact pick_run_other_truthy env source s hmode ht
  · intro u rest hq
    exact pick_run_morning_cons env source s hq

/-- Witness for the amended claim C10: the unrecognized mode `"banana"`
behaves exactly like `"evening"` on a concrete state. -/
theorem C10_witness :
    (strL "banana" ≠ strL "morning") ∧
      pick_link_for_run rss_blank_env rss_src
          { sent_urls := [], queue_new := [strL "http://w/z"], archive_page := 3 }
          (strL "banana") =
        pick_link_for_run rss_blank_env rss_src
          { sent_urls := [], queue_new := [strL "http://w/z"], archive_page := 3 }
          (strL "evening") :=
  ⟨by decide,
    (C10_mode_dispatch rss_blank_env rss_src
        { sent_urls := [], queue_new := [strL "http://w/z"], archive_page := 3 }).1
      (strL "banana") (by decide)⟩

/-! ## Claims C2 and C6: publish-phase iteration -/

/-- Selecting a link never touches the sent history: the morning pop only
shrinks the queue, and the backlog scan only moves the cursor. -/
theorem pick_run_sent (env : Env) (source : Source) (s : SrcState) (mode : Url) :
    (pick_link_for_run env source s mode).2.sent_urls = s.sent_urls := by
  have hs1 := (pick_old_go_state env source s.sent_urls 5 s).1
  by_cases hm : mode = strL "morning"
  · rw [hm]
    cases hq : s.queue_new with
    | cons u rest =>
      rw [pick_run_morning_cons env source s hq]
    | nil =>
      rw [pick_run_morning_nil env source s hq]
      exact hs1
  · by_cases ht : truthyOpt (pick_old_link env source s).1 = true
    · rw [pick_run_other_truthy env source s hm ht]
      exact hs1
    · have ht' : truthyOpt (pick_old_link env source s).1 = false := by
        simpa using ht
      cases hq : (pick_old_link env source s).2.queue_new with
      | cons u rest =>
        rw [pick_run_other_falsy_cons env source s hm ht' hq]
        exact hs1
      | nil =>
        rw [pick_run_other_falsy_nil env source s hm ht' hq]
        exact hs1

/-- Oracle set used by the publish-phase scenarios: no fetch succeeds and
metadata extraction fails for every link. -/
def noop_fail_env : Env :=
  { fetch := fun _ => none, extract := fun _ _ => [],
    shuffle := fun l => l, parse := fun _ => none }

/-- Source used by the publish-phase scenarios. -/
def q_src : Source :=
  { id := strL "q", name := strL "Q", list_url := strL "http://q/",
    paging := strL "wp_page" }

/-- Claim C2 counterexample: when metadata extraction fails for the link
popped from `queue_new`, the source's state after the iteration is *not*
identical to its state before the selection step — the pop persists, so
the chosen link is gone from the queue (though one error notice is indeed
emitted and `sent_urls` is untouched). -/
theorem C2_cx :
    (publish_step noop_fail_env q_src (strL "morning")
        { sent_urls := [], queue_new := [strL "http://q/a"], archive_page := 1 }).1 ≠
      { sent_urls := [], queue_new := [strL "http://q/a"], archive_page := 1 } ∧
    (publish_step noop_fail_env q_src (strL "morning")
        { sent_urls := [], queue_new := [strL "http://q/a"], archive_page := 1 }).2 =
      [Msg.parseError (strL "Q") (strL "http://q/a")] := by
  refine ⟨by decide, by decide⟩

/-- Claim C2 (amended): when metadata extraction fails for the selected
link, the source's iteration emits exactly one error notice and does not
append anything to `sent_urls` (so the link is never marked sent), but the
state keeps the selection step's own mutations — the queue pop or the
archive-cursor advance is not rolled back, so a link popped from
`queue_new` is lost to the queue. -/
theorem C2_extraction_failure (env : Env) (source : Source) (mode : Url)
    (s : SrcState) {link : Url}
    (hpick : (pick_link_for_run env source s mode).1 = some link)
    (hne : link ≠ []) (hparse : env.parse link = none) :
    publish_step env source mode s =
      ((pick_link_for_run env source s mode).2,
        [Msg.parseError source.name link]) ∧
    (pick_link_for_run env source s mode).2.sent_urls = s.sent_urls := by
  constructor
  · simp only [publish_step, hpick, if_neg hne, hparse]
  · exact pick_run_sent env source s mode

/-- Witness for the amended claim C2 at a concrete failing extraction. -/
theorem C2_witness :
    ((pick_link_for_run noop_fail_env q_src
        { sent_urls := [], queue_new := [strL "http://q/a"], archive_page := 1 }
        (strL "morning")).1 = some (strL "http://q/a")) ∧
    (strL "http://q/a" ≠ []) ∧
    (noop_fail_env.parse (strL "http://q/a") = none) ∧
    (publish_step noop_fail_env q_src (strL "morning")
        { sent_urls := [], queue_new := [strL "http://q/a"], archive_page := 1 } =
      ((pick_link_for_run noop_fail_env q_src
          { sent_urls := [], queue_new := [strL "http://q/a"], archive_page := 1 }
          (strL "morning")).2,
        [Msg.parseError (strL "Q") (strL "http://q/a")]) ∧
      (pick_link_for_run noop_fail_env q_src
          { sent_urls := [], queue_new := [strL "http://q/a"], archive_page := 1 }
          (strL "morning")).2.sent_urls =
        ({ sent_urls := [], queue_new := [strL "http://q/a"], archive_page := 1 } :
          SrcState).sent_urls) :=
  ⟨by decide, by decide, rfl,
    C2_extraction_failure noop_fail_env q_src (strL "morning")
      { sent_urls := [], queue_new := [strL "http://q/a"], archive_page := 1 }
      (by decide) (by decide) rfl⟩

/-- Arithmetic of the sent-history cap: appending one link and keeping the
last 5000 entries is always a suffix drop, keeps the appended link last,
and bounds the length by 5000. -/
theorem cap_spec (prev : List Url) (link : Url) :
    (if 5000 < (prev ++ [link]).length then
        (prev ++ [link]).drop ((prev ++ [link]).length - 5000)
      else prev ++ [link]) =
      (prev ++ [link]).drop ((prev.length + 1) - 5000) ∧
    ((prev ++ [link]).drop ((prev.length + 1) - 5000)).getLast? = some link ∧
    ((prev ++ [link]).drop ((prev.length + 1) - 5000)).length ≤ 5000 := by
  have hlen : (prev ++ [link]).length = prev.length + 1 := by simp
  have hk : (prev.length + 1) - 5000 ≤ prev.length := by omega
  refine ⟨?_, ?_, ?_⟩
  · rw [hlen]
    by_cases h : 5000 < prev.length + 1
    · rw [if_pos h]
    · rw [if_neg h, Nat.sub_eq_zero_of_le (by omega), List.drop_zero]
  · rw [List.drop_append_of_le_length hk, List.getLast?_concat]
  · rw [List.length_drop, hlen]
    omega

/-- Claim C6: after a successful publish, the source's sent history is the
pre-publish history with the published link appended and only the oldest
entries dropped when the 5000 cap is exceeded — so the published URL is
its last element and its length never exceeds 5000. -/
theorem C6_sent_cap (env : Env) (source : Source) (mode : Url) (s : SrcState)
    {link : Url} (hpick : (pick_link_for_run env source s mode).1 = some link)
    (hne : link ≠ []) (hparse : (env.parse link).isSome = true) :
    (publish_step env source mode s).1.sent_urls =
      ((pick_link_for_run env source s mode).2.sent_urls ++ [link]).drop
        (((pick_link_for_run env source s mode).2.sent_urls.length + 1) - 5000) ∧
    (publish_step env source mode s).1.sent_urls.getLast? = some link ∧
    (publish_step env source mode s).1.sent_urls.length ≤ 5000 ∧
    (publish_step env source mode s).2 = [Msg.published source.name link] := by
  obtain ⟨u, hu⟩ := Option.isSome_iff_exists.mp hparse
  obtain ⟨hcap1, hcap2, hcap3⟩ :=
    cap_spec (pick_link_for_run env source s mode).2.sent_urls link
  simp only [publish_step, hpick, if_neg hne, hu]
  exact ⟨hcap1, by rw [hcap1]; exact hcap2, by rw [hcap1]; exact hcap3, by trivial⟩

/-- Oracle set for the successful-publish witness: fetches fail (forcing the
queue path) but extraction succeeds. -/
def parse_ok_env : Env :=
  { fetch := fun _ => none, extract := fun _ _ => [],
    shuffle := fun l => l, parse := fun _ => some () }

/-- Witness for claim C6 at a concrete successful publish from the queue. -/
theorem C6_witness :
    ((pick_link_for_run parse_ok_env q_src
        { sent_urls := [], queue_new := [strL "http://q/a"], archive_page := 1 }
        (strL "morning")).1 = some (strL "http://q/a")) ∧
    (strL "http://q/a" ≠ []) ∧
    ((parse_ok_env.parse (strL "http://q/a")).isSome = true) ∧
    ((publish_step parse_ok_env q_src (strL "morning")
        { sent_urls := [], queue_new := [strL "http://q/a"], archive_page := 1 }).1.sent_urls.getLast?
      = some (strL "http://q/a")) :=
  ⟨by decide, by decide, rfl,
    (C6_sent_cap parse_ok_env q_src (strL "morning")
      { sent_urls := [], queue_new := [strL "http://q/a"], archive_page := 1 }
      (by decide) (by decide) rfl).2.1⟩

/-! ## Claim C1: the dedup invariant does not hold in the code -/

/-- Oracle set for the dedup scenario: every fetch returns an RSS document
whose single item links `http://x/a`, so the front listing page and
archive page 1 contain the same single article. -/
def dup_env : Env :=
  { fetch := fun _ => some [some (strL "http://x/a")],
    extract := fun src doc =>
      if src.paging = strL "rss" then extract_links_rss doc else [],
    shuffle := fun l => l,
    parse := fun _ => some () }

/-- RSS source of the dedup scenario. -/
def dup_src : Source :=
  { id := strL "s", name := strL "S", list_url := strL "http://x/feed",
    paging := strL "rss" }

/-- Claim C1 is violated by the code (demonstration at a reachable state).
Starting from the fresh default state, one evening run — refresh followed
by the publish iteration — leaves `http://x/a` in `sent_urls` *and* in
`queue_new`: refresh queues the link, `pick_old_link` checks only
`sent_urls` (never `queue_new`), so the backlog scan re-selects the queued
link, and after publishing it stays in the queue.  A subsequent morning
pick then returns the already-sent URL a second time.  Separately, a URL
differing only in its query string enters the queue next to its
normalized twin in `sent_urls`: `add_new_links_to_queue` compares raw
strings — `normalize_url` is defined but never called anywhere in the
program. -/
theorem C1_dedup_violation :
    (strL "http://x/a" ∈
        (publish_step dup_env dup_src (strL "evening")
          (refresh_step dup_env dup_src init_source_state)).1.sent_urls ∧
      strL "http://x/a" ∈
        (publish_step dup_env dup_src (strL "evening")
          (refresh_step dup_env dup_src init_source_state)).1.queue_new ∧
      (pick_link_for_run dup_env dup_src
          (publish_step dup_env dup_src (strL "evening")
            (refresh_step dup_env dup_src init_source_state)).1
          (strL "morning")).1 = some (strL "http://x/a")) ∧
    ((add_new_links_to_queue
        { sent_urls := [strL "http://x/a"], queue_new := [], archive_page := 1 }
        [strL "http://x/a?utm=1"]).queue_new = [strL "http://x/a?utm=1"] ∧
      normalize_url (strL "http://x/a?utm=1") = normalize_url (strL "http://x/a")) := by
  refine ⟨⟨by decide, by decide, by decide⟩, by decide, by decide⟩

end TgCurator
